import Mathlib

/-!
Shallow embedding of the SP500-ESG-Risk-Scores dashboard (src/app.py).

The app loads one CSV into a pandas DataFrame and derives views from it.
We model a DataFrame as a `Table`: a list of column names and a list of
rows, each row a list of cells.  A cell is a string, an exact rational
(pandas floats are modelled by exact arithmetic), or null (NaN).

Pandas behaviours modelled, with the source of each modelling choice
noted at the definition site:
  * `load_data` (app.py lines 19-36): path iteration, per-candidate
    error message only in the `except` branch, final message when the
    loop falls through.
  * Sector normalisation (line 48): `fillna("Unknown").astype(str)`
    assigned back into `df_raw` in place.
  * `sort_values`: pandas `nargsort` performs a stable ascending
    argsort; for `ascending=False` it reverses the input, argsorts,
    and reverses the result, so descending order is also stable.
    (numpy's introsort is stable on the small inputs at issue.)
  * `groupby('Sector')` enumerates group keys in ascending sorted
    order (`sort=True` default).
  * `DataFrame.corr`: pairwise-complete Pearson correlation; an entry
    is NaN (modelled `none`) when either column has zero sum of
    squared deviations over the common rows, mirroring the
    `divisor != 0` test in pandas `nancorr`.
-/

namespace ESG

/-- One cell of the table: a string, an exact numeric value, or null (NaN). -/
inductive Cell where
  | str (s : String)
  | num (q : ℚ)
  | null
deriving DecidableEq, Repr

/-- Numeric payload of a cell, if any. -/
def Cell.num? : Cell → Option ℚ
  | .num q => some q
  | _ => none

/-- Is the cell a string? -/
def Cell.isStr : Cell → Bool
  | .str _ => true
  | _ => false

/-- Is the cell numeric? -/
def Cell.isNum : Cell → Bool
  | .num _ => true
  | _ => false

/-- A DataFrame: named columns and rows of cells. -/
structure Table where
  cols : List String
  rows : List (List Cell)
deriving DecidableEq, Repr

/-- Index of the first occurrence of a column label, as pandas column lookup. -/
def idxOf? (c : String) : List String → Option Nat
  | [] => none
  | h :: t => if h = c then some 0 else (idxOf? c t).map (· + 1)

/-- Cell of a row at a column index (null when the row is short). -/
def getCell (r : List Cell) (i : Nat) : Cell :=
  (r[i]?).getD Cell.null

/-- The cells of one named column, top to bottom ([] when the column is absent). -/
def col (t : Table) (c : String) : List Cell :=
  match idxOf? c t.cols with
  | some i => t.rows.map (fun r => getCell r i)
  | none => []

/-! ### Loader (app.py lines 19-36)

`load_data` iterates over candidate paths; for each existing path it
tries `pd.read_csv`; on success it returns at once, on failure it shows
an error message and moves on.  A non-existing path produces no
message.  When the loop falls through, a final message is shown and
`None` returned.  The filesystem is abstracted as a map from path to
one of three states. -/

/-- State of one candidate path on disk. -/
inductive FileState where
  | absent
  | unparsable
  | parsed (t : Table)
deriving DecidableEq

/-- Did the path exist and parse? -/
def FileState.isParsed : FileState → Bool
  | .parsed _ => true
  | _ => false

/-- Did the path exist but fail to parse? -/
def FileState.isUnparsable : FileState → Bool
  | .unparsable => true
  | _ => false

/-- The per-candidate diagnostic of app.py line 33. -/
def errMsg (p : String) : String :=
  "Error reading file at " ++ p

/-- The final diagnostic of app.py line 35. -/
def finalMsg : String :=
  "Could not find the dataset (sp500esg.csv). Please ensure it is in the same directory as the app."

/-- app.py lines 19-36: returns the loaded table (or none) together with the
list of diagnostic messages emitted, in order. -/
def load_data (fs : String → FileState) : List String → Option Table × List String
  | [] => (none, [finalMsg])
  | p :: rest =>
    match fs p with
    | .parsed t => (some t, [])
    | .unparsable =>
      let r := load_data fs rest
      (r.1, errMsg p :: r.2)
    | .absent => load_data fs rest

/-! ### Stable sorting (model of numpy/pandas argsort)

Pandas `sort_values` argsorts with a deterministic kind that is stable
on the inputs at issue (numpy introsort runs insertion sort below 16
elements).  We model it as a stable insertion sort: `insertBy` places
`x` before the first element not strictly below it, so earlier input
elements precede tied later ones. -/

/-- Stable insert: `x` goes before the first element `h` with `¬ lt h x`. -/
def insertBy (lt : α → α → Bool) (x : α) : List α → List α
  | [] => [x]
  | h :: t => if lt h x then h :: insertBy lt x t else x :: h :: t

/-- Stable ascending sort by the strict comparison `lt`. -/
def sortBy (lt : α → α → Bool) (l : List α) : List α :=
  l.foldr (insertBy lt) []

/-- The distinct values of a list (pandas `unique` up to order; the
result is only ever used as a set or sorted afterwards). -/
def uniq : List String → List String
  | [] => []
  | a :: t => if a ∈ uniq t then uniq t else a :: uniq t

/-- Lexicographic strict comparison of character lists (Python string
comparison by code point, as used by `sorted`). -/
def strLtL : List Char → List Char → Bool
  | _, [] => false
  | [], _ :: _ => true
  | a :: as, b :: bs => if a < b then true else if b < a then false else strLtL as bs

/-- Strict string comparison by code points. -/
def strLt (a b : String) : Bool := strLtL a.toList b.toList

/-! ### Sector normalisation and filter (app.py lines 47-57) -/

/-- Line 48, per cell: `fillna("Unknown").astype(str)` — null becomes
"Unknown", strings stay, numbers are stringified. -/
def Cell.fillSector : Cell → String
  | .null => "Unknown"
  | .str s => s
  | .num q => toString q

/-- String view of a cell (used for group keys; `null` prints as "nan"). -/
def asStr : Cell → String
  | .str s => s
  | .num q => toString q
  | .null => "nan"

/-- app.py line 48: `df_raw['Sector'] = df_raw['Sector'].fillna("Unknown").astype(str)`.
The Sector column of the loaded table is overwritten in place. -/
def normalizeSector (t : Table) : Table :=
  match idxOf? "Sector" t.cols with
  | some i => ⟨t.cols, t.rows.map (fun r => r.set i (Cell.str (Cell.fillSector (getCell r i))))⟩
  | none => t

/-- app.py line 49: `sorted(df_raw['Sector'].unique())` — the multiselect
options: distinct sector values in ascending order. -/
def all_sectors (t : Table) : List String :=
  sortBy strLt (uniq ((col t "Sector").map asStr))

/-- app.py line 54: `df_raw[df_raw['Sector'].isin(selected_sectors)]` —
keep the rows whose sector value is among the selected strings. -/
def filterSectors (t : Table) (sel : List String) : Table :=
  let i := (idxOf? "Sector" t.cols).getD 0
  ⟨t.cols, t.rows.filter (fun r =>
    match getCell r i with
    | .str s => decide (s ∈ sel)
    | _ => false)⟩

/-- app.py lines 47-60: the table the derived views actually see.
With a Sector column the table is normalised and, when the selection is
nonempty, filtered; otherwise it is used as is (`.copy()` has the same
content). -/
def pipelineDf (t0 : Table) (sel : List String) : Table :=
  if "Sector" ∈ t0.cols then
    let tr := normalizeSector t0
    if sel.isEmpty then tr else filterSectors tr sel
  else t0

/-! ### Metric columns (app.py line 105) -/

/-- Does `hay` start with `needle` (character lists)? -/
def startsWithL : List Char → List Char → Bool
  | _, [] => true
  | [], _ :: _ => false
  | h :: hs, n :: ns => h = n && startsWithL hs ns

/-- Does `hay` contain `needle` as a contiguous subsequence? -/
def containsSeq : List Char → List Char → Bool
  | [], needle => needle.isEmpty
  | h :: hs, needle => startsWithL (h :: hs) needle || containsSeq hs needle

/-- app.py line 105, per column: `'Score' in col or 'score' in col` —
containment of the two exact casings, not case-insensitive. -/
def scoreSub (c : String) : Bool :=
  containsSeq c.toList "Score".toList || containsSeq c.toList "score".toList

/-- app.py line 105: `[col for col in df.columns if 'Score' in col or 'score' in col]`. -/
def risk_metrics (cols : List String) : List String :=
  cols.filter scoreSub

/-- Modelled from the spec (for comparison with `risk_metrics`): the
columns whose name contains the substring "score" compared
case-insensitively. -/
def riskMetricsSpec (cols : List String) : List String :=
  cols.filter (fun c => containsSeq (c.toList.map Char.toLower) "score".toList)

/-! ### Sector aggregation (app.py line 110) -/

/-- Arithmetic mean of a list of rationals (0 on []; pandas gives NaN
there, a case no claim touches). -/
def mean (l : List ℚ) : ℚ :=
  l.sum / (l.length : ℚ)

/-- app.py line 110:
`df.groupby('Sector')[metric].mean().reset_index().sort_values(by=metric, ascending=False)`.
Group keys are enumerated in ascending sorted order (`groupby`
default `sort=True`); the group means are then sorted descending.
Pandas `nargsort` realises `ascending=False` as reverse, stable
ascending argsort, reverse — so descending order is stable as well.
Takes the sector and metric column positions as arguments. -/
def groupMeansAt (si mi : Nat) (rows : List (List Cell)) : List (String × ℚ) :=
  let keys := sortBy strLt (uniq (rows.map (fun r => asStr (getCell r si))))
  let gm := keys.map (fun k =>
    (k, mean ((rows.filter (fun r => asStr (getCell r si) = k)).filterMap
      (fun r => (getCell r mi).num?))))
  (sortBy (fun p q : String × ℚ => decide (p.2 < q.2)) gm.reverse).reverse

/-- app.py line 110, applied to the table's Sector column and the chosen
metric column. -/
def sector_mean (t : Table) (m : String) : List (String × ℚ) :=
  groupMeansAt ((idxOf? "Sector" t.cols).getD 0) ((idxOf? m t.cols).getD 0) t.rows

/-! ### Top-N explorer (app.py line 130) -/

/-- Strict cell comparison as pandas compares sort keys: numbers with
numbers, strings with strings; any comparison involving null is false
(NaN ordering is handled separately by pandas and not modelled — the
claims only concern all-numeric sort columns). -/
def cellLt : Cell → Cell → Bool
  | .num a, .num b => decide (a < b)
  | .str a, .str b => decide (a < b)
  | _, _ => false

/-- Row comparison on the numeric values in column position `i` (used to
state sortedness of `sorted_df` on all-numeric sort columns). -/
def rowLe (i : Nat) (r1 r2 : List Cell) : Prop :=
  ∀ a b : ℚ, (getCell r1 i).num? = some a → (getCell r2 i).num? = some b → a ≤ b

/-- app.py line 130: `df.sort_values(by=sort_by, ascending=ascending).head(top_n)`.
Ascending: stable ascending sort.  Descending: reverse, stable
ascending sort, reverse (pandas `nargsort`).  `head` takes the first
`n` rows. -/
def sorted_df (t : Table) (c : String) (n : Nat) (asc : Bool) : Table :=
  let i := (idxOf? c t.cols).getD 0
  let lt := fun r1 r2 => cellLt (getCell r1 i) (getCell r2 i)
  ⟨t.cols,
    (if asc then sortBy lt t.rows else (sortBy lt t.rows.reverse).reverse).take n⟩

/-! ### Correlation view (app.py lines 88-100) -/

/-- app.py line 88: the fixed five-element whitelist. -/
def columns_to_compare : List String :=
  ["Environment Risk Score", "Social Risk Score", "Governance Risk Score",
   "Total ESG Risk score", "Controversy Score"]

/-- app.py line 89: `[col for col in columns_to_compare if col in df.columns]`. -/
def valid_columns (cols : List String) : List String :=
  columns_to_compare.filter (fun c => decide (c ∈ cols))

/-- Rows where both column positions carry a number (pandas
pairwise-complete observations for `corr`). -/
def pairsAt (i1 i2 : Nat) (rows : List (List Cell)) : List (ℚ × ℚ) :=
  rows.filterMap (fun r =>
    match (getCell r i1).num?, (getCell r i2).num? with
    | some a, some b => some (a, b)
    | _, _ => none)

/-- Pairwise-complete observations of two named columns. -/
def pairCol (t : Table) (c1 c2 : String) : List (ℚ × ℚ) :=
  pairsAt ((idxOf? c1 t.cols).getD 0) ((idxOf? c2 t.cols).getD 0) t.rows

/-- Sum of squared deviations from the mean. -/
def svar (l : List ℚ) : ℚ :=
  let m := mean l
  (l.map (fun x => (x - m) ^ 2)).sum

/-- Sum of products of deviations from the two means. -/
def sxy (ps : List (ℚ × ℚ)) : ℚ :=
  let mx := mean (ps.map Prod.fst)
  let my := mean (ps.map Prod.snd)
  (ps.map (fun p => (p.1 - mx) * (p.2 - my))).sum

/-- The numeric cells at one column position, top to bottom. -/
def numsAt (i : Nat) (rows : List (List Cell)) : List ℚ :=
  rows.filterMap (fun r => (getCell r i).num?)

/-- The numeric cells of one named column. -/
def numsOf (t : Table) (c : String) : List ℚ :=
  numsAt ((idxOf? c t.cols).getD 0) t.rows

/-- One Pearson correlation entry over the pairwise-complete rows;
`none` models pandas NaN, produced exactly when the divisor
`sqrt(sumxx * sumyy)` vanishes (pandas `nancorr`). -/
noncomputable def corrEntry (t : Table) (c1 c2 : String) : Option ℝ :=
  let ps := pairCol t c1 c2
  if svar (ps.map Prod.fst) = 0 ∨ svar (ps.map Prod.snd) = 0 then none
  else some ((sxy ps : ℝ) /
    (Real.sqrt (svar (ps.map Prod.fst)) * Real.sqrt (svar (ps.map Prod.snd))))

/-- app.py line 92: `df[valid_columns].corr()`, as a square matrix over
the valid columns in whitelist order. -/
noncomputable def corr_matrix (t : Table) : List (List (Option ℝ)) :=
  (valid_columns t.cols).map (fun c1 =>
    (valid_columns t.cols).map (fun c2 => corrEntry t c1 c2))

/-- app.py lines 91-100: the correlation view is rendered only when
more than one whitelisted column is present. -/
noncomputable def corrView (t : Table) : Option (List (List (Option ℝ))) :=
  if 1 < (valid_columns t.cols).length then some (corr_matrix t) else none

/-- Entry (i, j) of a matrix given as a list of rows. -/
def matEntry (m : List (List α)) (i j : Nat) : Option α :=
  (m[i]?).bind (fun row => row[j]?)

/-! ### The full rendering pass and its exception points (claim C2)

The script body from line 62 on re-runs all views.  We record, step by
step in program order, every operation that can raise an exception that
is not guarded by a column-presence check, returning `Except.error` at
the first raise as the script would crash there:
  * line 73 `df.describe()` raises on a frame without columns;
  * line 92 `df[valid_columns].corr()` raises when a selected column
    holds strings (pandas 2 `corr` does not accept non-numeric data);
  * line 110 `groupby(...).mean()` raises when the chosen metric
    column holds strings;
  * line 130 `sort_values(by=sort_by)` raises when `sort_by` is `None`
    (no score column, so the selectbox returned `None`) or when the
    sort column mixes strings with numbers (unorderable types);
  * line 137 `px.bar(..., y='Symbol')` raises when there is no
    `Symbol` column;
  * line 155 `st.selectbox("Y-Axis Metric", risk_metrics, index=...)`
    raises StreamlitAPIException when `'Controversy Score'` is not
    among the metric columns and the default `index=1` is out of
    range, i.e. when fewer than two metric columns exist;
  * lines 157-159 `px.scatter(..., color=color_by, hover_name='Symbol')`
    raises when the colour column (default `'Sector'`, offered even
    when absent) or `Symbol` is missing.

A Streamlit selectbox over options `l` returns an element of `l`
(`none` only when `l` is empty); a user-chosen index is abstracted by
`pick`, while the hard-coded default `index=1` of line 155 is checked
against the option count as Streamlit does. -/

/-- A selectbox choice: the option at `i`, defaulting to the first option. -/
def pick (l : List String) (i : Nat) : Option String :=
  (l[i]?).orElse (fun _ => l.head?)

/-- Does some cell of column `c` hold a string? -/
def hasStrCell (t : Table) (c : String) : Bool :=
  (col t c).any Cell.isStr

/-- Does some cell of column `c` hold a number? -/
def hasNumCell (t : Table) (c : String) : Bool :=
  (col t c).any Cell.isNum

/-- Line 92 raise condition. -/
def corrRaises (df : Table) : Bool :=
  decide (1 < (valid_columns df.cols).length) && (valid_columns df.cols).any (hasStrCell df)

/-- Line 110 raise condition (the guard on line 108 checks `Sector`
presence and a chosen metric, but not the metric's dtype). -/
def meanRaises (df : Table) (mIdx : Nat) : Bool :=
  match pick (risk_metrics df.cols) mIdx with
  | none => false
  | some m => decide ("Sector" ∈ df.cols) && hasStrCell df m

/-- Line 130 raise condition. -/
def sortRaises (df : Table) (sIdx : Nat) : Bool :=
  match pick (risk_metrics df.cols) sIdx with
  | none => true
  | some s => hasStrCell df s && hasNumCell df s

/-- Line 155 raise condition: the Y-axis selectbox's default index is
`risk_metrics.index('Controversy Score')` when that column is a metric,
and the literal `1` otherwise; Streamlit raises when the index is not
below the number of options. -/
def scatterYRaises (df : Table) : Bool :=
  decide ("Controversy Score" ∉ risk_metrics df.cols) &&
    decide ((risk_metrics df.cols).length < 2)

/-- Lines 157-159 raise condition. -/
def scatterRaises (df : Table) (cIdx : Nat) : Bool :=
  (match pick ("Sector" :: risk_metrics df.cols) cIdx with
   | none => false
   | some c => decide (c ∉ df.cols)) || decide ("Symbol" ∉ df.cols)

/-- One full run of the script body after a successful load, with the
widget selections abstracted (`sel` the sector multiselect, the `Nat`s
the selectbox indices).  Returns `ok` when no operation raises, and
the first uncaught exception otherwise. -/
def renderAll (t0 : Table) (sel : List String) (mIdx sIdx cIdx : Nat) : Except String Unit :=
  let df := pipelineDf t0 sel
  if df.cols.isEmpty then .error "describe raises on a dataframe without columns"
  else if corrRaises df then .error "corr raises on a non-numeric score column"
  else if meanRaises df mIdx then .error "groupby mean raises on a non-numeric metric"
  else if sortRaises df sIdx then .error "sort_values raises"
  else if "Symbol" ∉ df.cols then .error "bar chart raises: Symbol column missing"
  else if scatterYRaises df then .error "y-axis selectbox raises: default index out of range"
  else if scatterRaises df cIdx then .error "scatter raises"
  else .ok ()

/-! ## Helper lemmas -/

theorem idxOf?_eq_some {c : String} : ∀ {l : List String} {i : Nat},
    idxOf? c l = some i → l[i]? = some c := by
  intro l
  induction l with
  | nil => intro i h; simp [idxOf?] at h
  | cons a t ih =>
    intro i h
    by_cases ha : a = c
    · simp [idxOf?, ha] at h
      subst ha
      simp [← h]
    · simp [idxOf?, ha] at h
      obtain ⟨j, hj, hij⟩ := h
      subst hij
      simpa using ih hj

theorem idxOf?_isSome_of_mem {c : String} : ∀ {l : List String},
    c ∈ l → (idxOf? c l).isSome := by
  intro l
  induction l with
  | nil => intro h; simp at h
  | cons a t ih =>
    intro h
    by_cases ha : a = c
    · simp [idxOf?, ha]
    · have h2 : c ∈ t := by
        rcases List.mem_cons.mp h with h1 | h1
        · exact absurd h1.symm ha
        · exact h1
      have h3 := ih h2
      rw [idxOf?, if_neg ha]
      cases hx : idxOf? c t with
      | none => rw [hx] at h3; simp at h3
      | some j => simp

theorem idxOf?_lt_length {c : String} {l : List String} {i : Nat}
    (h : idxOf? c l = some i) : i < l.length := by
  have := idxOf?_eq_some h
  exact (List.getElem?_eq_some.mp this).1

theorem mem_insertBy {lt : α → α → Bool} {x y : α} : ∀ {l : List α},
    y ∈ insertBy lt x l ↔ y = x ∨ y ∈ l := by
  intro l
  induction l with
  | nil => simp [insertBy]
  | cons h t ih =>
    by_cases hlt : lt h x
    · simp only [insertBy, hlt, if_true, List.mem_cons, ih]
      tauto
    · simp [insertBy, hlt]

theorem insertBy_perm (lt : α → α → Bool) (x : α) : ∀ (l : List α),
    (insertBy lt x l).Perm (x :: l)
  | [] => .refl _
  | h :: t => by
    unfold insertBy
    split
    · exact ((insertBy_perm lt x t).cons h).trans (List.Perm.swap x h t)
    · exact .refl _

theorem sortBy_perm (lt : α → α → Bool) : ∀ (l : List α), (sortBy lt l).Perm l
  | [] => .refl _
  | a :: t => (insertBy_perm lt a (sortBy lt t)).trans ((sortBy_perm lt t).cons a)

theorem mem_sortBy {lt : α → α → Bool} {l : List α} {y : α} :
    y ∈ sortBy lt l ↔ y ∈ l :=
  (sortBy_perm lt l).mem_iff

theorem insertBy_sorted_le [LinearOrder α] {lt : α → α → Bool}
    (hlt : ∀ a b, lt a b = true ↔ a < b) {x : α} : ∀ {l : List α},
    l.Pairwise (· ≤ ·) → (insertBy lt x l).Pairwise (· ≤ ·) := by
  intro l
  induction l with
  | nil => intro _; simp [insertBy]
  | cons h t ih =>
    intro hp
    rw [List.pairwise_cons] at hp
    by_cases hc : lt h x
    · have he : insertBy lt x (h :: t) = h :: insertBy lt x t := by
        simp [insertBy, hc]
      rw [he, List.pairwise_cons]
      refine ⟨?_, ih hp.2⟩
      intro y hy
      rcases mem_insertBy.mp hy with rfl | hy2
      · exact le_of_lt ((hlt h y).mp hc)
      · exact hp.1 y hy2
    · have he : insertBy lt x (h :: t) = x :: h :: t := by
        simp [insertBy, hc]
      have hxh : x ≤ h := le_of_not_lt (fun hl => hc ((hlt h x).mpr hl))
      rw [he, List.pairwise_cons]
      refine ⟨?_, List.pairwise_cons.mpr hp⟩
      intro y hy
      rcases List.mem_cons.mp hy with rfl | hy2
      · exact hxh
      · exact hxh.trans (hp.1 y hy2)

theorem sortBy_sorted_le [LinearOrder α] {lt : α → α → Bool}
    (hlt : ∀ a b, lt a b = true ↔ a < b) : ∀ (l : List α),
    (sortBy lt l).Pairwise (· ≤ ·)
  | [] => by simp [sortBy]
  | a :: t => insertBy_sorted_le hlt (sortBy_sorted_le hlt t)

theorem sortBy_sorted_lt [LinearOrder α] {lt : α → α → Bool}
    (hlt : ∀ a b, lt a b = true ↔ a < b) {l : List α} (h : l.Nodup) :
    (sortBy lt l).Pairwise (· < ·) := by
  have hs := sortBy_sorted_le hlt l
  have hn : (sortBy lt l).Nodup := ((sortBy_perm _ l).nodup_iff).mpr h
  exact (hs.and hn).imp (fun hab => lt_of_le_of_ne hab.1 hab.2)

theorem mem_uniq {a : String} : ∀ {l : List String}, a ∈ uniq l ↔ a ∈ l := by
  intro l
  induction l with
  | nil => simp [uniq]
  | cons b t ih =>
    by_cases hb : b ∈ uniq t
    · rw [uniq, if_pos hb, List.mem_cons, ih]
      constructor
      · exact Or.inr
      · rintro (rfl | h)
        · exact ih.mp hb
        · exact h
    · rw [uniq, if_neg hb, List.mem_cons, List.mem_cons, ih]

theorem nodup_uniq : ∀ (l : List String), (uniq l).Nodup
  | [] => by simp [uniq]
  | a :: t => by
    by_cases ha : a ∈ uniq t
    · rw [uniq, if_pos ha]
      exact nodup_uniq t
    · rw [uniq, if_neg ha]
      exact List.Nodup.cons ha (nodup_uniq t)

theorem strLtL_iff : ∀ (l1 l2 : List Char), strLtL l1 l2 = true ↔ List.Lex (· < ·) l1 l2
  | l1, [] => by
    constructor
    · intro h
      cases l1 <;> simp [strLtL] at h
    · intro h
      cases h
  | [], b :: bs => by
    simp only [strLtL]
    exact ⟨fun _ => List.Lex.nil, fun _ => trivial⟩
  | a :: as, b :: bs => by
    by_cases hab : a < b
    · simp only [strLtL, if_pos hab]
      exact ⟨fun _ => List.Lex.rel hab, fun _ => trivial⟩
    · by_cases hba : b < a
      · simp only [strLtL, if_neg hab, if_pos hba]
        constructor
        · intro h
          exact absurd h Bool.false_ne_true
        · intro h
          cases h with
          | cons h3 => exact absurd hba (lt_irrefl _)
          | rel h1 => exact absurd h1 hab
      · have heq : a = b := le_antisymm (le_of_not_lt hba) (le_of_not_lt hab)
        subst heq
        simp only [strLtL, if_neg hab, if_neg hba]
        rw [strLtL_iff as bs]
        constructor
        · exact fun h => List.Lex.cons h
        · intro h
          cases h with
          | cons h3 => exact h3
          | rel h1 => exact absurd h1 hab

theorem strLt_iff (a b : String) : strLt a b = true ↔ a < b := by
  rw [String.lt_iff_toList_lt]
  exact strLtL_iff a.toList b.toList

/-- C1: for every ordered candidate list, `load_data` returns the parsed
table of the first candidate that exists and parses successfully — the
result is already determined by the prefix up to that candidate, so later
candidates are never read — and returns the sentinel `none` when every
candidate is absent or fails to parse. -/
theorem claim1_loader_first_success :
    (∀ (fs : String → FileState) (l1 l2 : List String) (p : String) (t : Table),
      (∀ q ∈ l1, (fs q).isParsed = false) → fs p = .parsed t →
      (load_data fs (l1 ++ p :: l2)).1 = some t) ∧
    (∀ (fs : String → FileState) (l : List String),
      (∀ p ∈ l, (fs p).isParsed = false) → (load_data fs l).1 = none) := by
  constructor
  · intro fs l1 l2 p t h1 h2
    induction l1 with
    | nil => simp [load_data, h2]
    | cons q rest ih =>
      have hq := h1 q (by simp)
      have hrest : ∀ q2 ∈ rest, (fs q2).isParsed = false := fun q2 hq2 => h1 q2 (by simp [hq2])
      cases hfq : fs q with
      | parsed t2 => rw [hfq] at hq; simp [FileState.isParsed] at hq
      | unparsable => simpa [load_data, hfq] using ih hrest
      | absent => simpa [load_data, hfq] using ih hrest
  · intro fs l h
    induction l with
    | nil => simp [load_data]
    | cons p rest ih =>
      have hp := h p (by simp)
      have hrest : ∀ q ∈ rest, (fs q).isParsed = false := fun q hq => h q (by simp [hq])
      cases hfp : fs p with
      | parsed t => rw [hfp] at hp; simp [FileState.isParsed] at hp
      | unparsable => simpa [load_data, hfp] using ih hrest
      | absent => simpa [load_data, hfp] using ih hrest

/-- Witness for C1: a concrete filesystem where the first candidate is
unparsable, the second parses and the third is never relevant; and one
where the only candidate is absent. -/
theorem claim1_witness :
    (load_data (fun p => if p = "b" then .parsed ⟨["A"], []⟩ else .unparsable)
      ["a", "b", "c"]).1 = some ⟨["A"], []⟩ ∧
    (load_data (fun _ => FileState.absent) ["a"]).1 = none := by
  constructor
  · exact claim1_loader_first_success.1 _ ["a"] ["c"] "b" _ (by decide) (by decide)
  · exact claim1_loader_first_success.2 _ ["a"] (by decide)

/-- Counterexample to C4: with two candidates that are both absent, the
loader emits only the final message — no per-candidate diagnostic is
recorded for a candidate that does not exist (the `st.error` on line 33
runs only in the `except` branch, i.e. for files that exist but fail to
parse). -/
theorem claim4_counterexample :
    (load_data (fun _ => FileState.absent)
      ["sp500esg.csv", "esg_project/sp500esg.csv"]).2 = [finalMsg] ∧
    errMsg "sp500esg.csv" ∉
      (load_data (fun _ => FileState.absent)
        ["sp500esg.csv", "esg_project/sp500esg.csv"]).2 := by
  refine ⟨rfl, ?_⟩
  decide

/-- C4 amended: when every candidate fails, `load_data` returns `none`
and its messages are exactly one diagnostic per candidate that exists
but fails to parse (in candidate order), followed by the final message;
absent candidates contribute no diagnostic. -/
theorem claim4_diagnostics_amended (fs : String → FileState) (paths : List String)
    (h : ∀ p ∈ paths, (fs p).isParsed = false) :
    load_data fs paths =
      (none, (paths.filter (fun p => (fs p).isUnparsable)).map errMsg ++ [finalMsg]) := by
  induction paths with
  | nil => simp [load_data]
  | cons p rest ih =>
    have hp := h p (by simp)
    have hrest : ∀ q ∈ rest, (fs q).isParsed = false := fun q hq => h q (by simp [hq])
    cases hfp : fs p with
    | parsed t => rw [hfp] at hp; simp [FileState.isParsed] at hp
    | unparsable =>
      simp [load_data, hfp, ih hrest, FileState.isUnparsable, List.filter_cons]
    | absent =>
      simp [load_data, hfp, ih hrest, FileState.isUnparsable, List.filter_cons]

/-- Witness for C4 amended: one unparsable candidate followed by one
absent candidate yields exactly the one diagnostic plus the final
message. -/
theorem claim4_witness :
    load_data (fun p => if p = "a" then FileState.unparsable else FileState.absent)
      ["a", "b"] = (none, [errMsg "a", finalMsg]) :=
  (claim4_diagnostics_amended _ _ (by decide)).trans (by decide)

theorem startsWithL_map (f : Char → Char) : ∀ (hay needle : List Char),
    startsWithL hay needle = true → startsWithL (hay.map f) (needle.map f) = true
  | _, [], _ => by simp [startsWithL]
  | [], n :: ns, hh => by simp [startsWithL] at hh
  | a :: hs, n :: ns, hh => by
    simp only [startsWithL, Bool.and_eq_true, decide_eq_true_eq] at hh
    simp only [List.map_cons, startsWithL, Bool.and_eq_true, decide_eq_true_eq]
    exact ⟨by rw [hh.1], startsWithL_map f hs ns hh.2⟩

theorem containsSeq_map (f : Char → Char) : ∀ (hay needle : List Char),
    containsSeq hay needle = true → containsSeq (hay.map f) (needle.map f) = true
  | [], needle, hh => by
    simp only [containsSeq, List.isEmpty_iff] at hh
    subst hh
    simp [containsSeq]
  | a :: hs, needle, hh => by
    simp only [containsSeq, Bool.or_eq_true] at hh
    simp only [List.map_cons, containsSeq, Bool.or_eq_true]
    rcases hh with h1 | h2
    · exact Or.inl (by simpa using startsWithL_map f (a :: hs) needle h1)
    · exact Or.inr (containsSeq_map f hs needle h2)

/-- Counterexample to C6: the column name "ESG SCORE" contains "score"
case-insensitively, so the claim includes it among the selectable
metrics, but line 105 tests only the exact casings 'Score' and 'score'
and excludes it. -/
theorem claim6_counterexample :
    risk_metrics ["ESG SCORE"] = [] ∧ riskMetricsSpec ["ESG SCORE"] = ["ESG SCORE"] := by
  constructor <;> decide

/-- C6 amended: the selectable metric columns are exactly the table's
columns containing the exact substring "Score" or the exact substring
"score"; every such column also contains "score" case-insensitively
(the code's set is a subset of the claim's set, and the inclusion is
strict in general). -/
theorem claim6_metrics_amended :
    (∀ (cols : List String) (c : String),
      c ∈ risk_metrics cols ↔ c ∈ cols ∧ scoreSub c = true) ∧
    (∀ cols : List String, risk_metrics cols ⊆ riskMetricsSpec cols) := by
  constructor
  · intro cols c
    simp [risk_metrics, List.mem_filter]
  · intro cols c hc
    rw [risk_metrics, List.mem_filter] at hc
    rw [riskMetricsSpec, List.mem_filter]
    refine ⟨hc.1, ?_⟩
    have h2 := hc.2
    rw [scoreSub, Bool.or_eq_true] at h2
    rcases h2 with h | h
    · have h3 := containsSeq_map Char.toLower _ _ h
      rwa [show "Score".toList.map Char.toLower = "score".toList from by decide] at h3
    · have h3 := containsSeq_map Char.toLower _ _ h
      rwa [show "score".toList.map Char.toLower = "score".toList from by decide] at h3

theorem cols_normalizeSector (t : Table) : (normalizeSector t).cols = t.cols := by
  rw [normalizeSector]
  cases idxOf? "Sector" t.cols <;> rfl

theorem getCell_set_ne {r : List Cell} {i j : Nat} {v : Cell} (h : i ≠ j) :
    getCell (r.set i v) j = getCell r j := by
  rw [getCell, getCell, List.getElem?_set_ne h]

theorem col_normalizeSector_ne (t : Table) (c : String) (hc : c ≠ "Sector") :
    col (normalizeSector t) c = col t c := by
  cases hsec : idxOf? "Sector" t.cols with
  | none => rw [normalizeSector, hsec]
  | some i =>
    rw [normalizeSector, hsec]
    rw [col, col]
    cases hc2 : idxOf? c t.cols with
    | none => rfl
    | some j =>
      have hij : i ≠ j := by
        intro he
        have h1 := idxOf?_eq_some hsec
        have h2 := idxOf?_eq_some hc2
        rw [he, h2] at h1
        exact hc (Option.some.inj h1)
      simp only [List.map_map]
      refine List.map_congr_left (fun r _ => ?_)
      exact getCell_set_ne hij

/-- Counterexample to C3: line 48 overwrites the Sector column of the
loaded table in place; a missing Sector value becomes the string
"Unknown", so a cell of the canonical loaded table changes. -/
theorem claim3_counterexample :
    normalizeSector ⟨["Sector"], [[Cell.null]]⟩ ≠ (⟨["Sector"], [[Cell.null]]⟩ : Table) ∧
    normalizeSector ⟨["Sector"], [[Cell.null]]⟩ = ⟨["Sector"], [[Cell.str "Unknown"]]⟩ := by
  constructor <;> decide

/-- C3 amended: the one in-place mutation after load is the Sector
normalisation of line 48 (`fillna("Unknown").astype(str)`), which
touches only the Sector column — every other column's cells are
unchanged and the column set is unchanged; the sector-filter step then
produces a new restricted view (its rows are a sublist of the
normalised table's rows, its columns identical) without further
mutation. -/
theorem claim3_frame_amended :
    (∀ (t : Table) (c : String), c ≠ "Sector" → col (normalizeSector t) c = col t c) ∧
    (∀ t : Table, (normalizeSector t).cols = t.cols) ∧
    (∀ (t : Table) (sel : List String),
      (filterSectors t sel).cols = t.cols ∧ (filterSectors t sel).rows.Sublist t.rows) :=
  ⟨col_normalizeSector_ne, cols_normalizeSector,
   fun t _ => ⟨rfl, List.filter_sublist t.rows⟩⟩

/-- Witness for C3 amended: on a concrete table with a null sector, the
Symbol column is untouched by the normalisation. -/
theorem claim3_witness :
    col (normalizeSector ⟨["Sector", "Symbol"], [[Cell.null, Cell.str "AAPL"]]⟩) "Symbol"
      = col ⟨["Sector", "Symbol"], [[Cell.null, Cell.str "AAPL"]]⟩ "Symbol" :=
  claim3_frame_amended.1 _ "Symbol" (by decide)

/-- C8: filtering the (normalised) table by the full set of distinct
sector values — the multiselect default — returns the table unchanged,
row for row, in order.  The well-formedness hypothesis says every row
has one cell per column, as rows parsed from a CSV do. -/
theorem claim8_filter_identity (t : Table)
    (hs : "Sector" ∈ t.cols)
    (hw : ∀ r ∈ t.rows, r.length = t.cols.length) :
    filterSectors (normalizeSector t) (all_sectors (normalizeSector t)) = normalizeSector t := by
  obtain ⟨si, hsi⟩ := Option.isSome_iff_exists.mp (idxOf?_isSome_of_mem hs)
  have hlen : si < t.cols.length := idxOf?_lt_length hsi
  have hnt : normalizeSector t =
      ⟨t.cols, t.rows.map (fun r => r.set si (Cell.str (Cell.fillSector (getCell r si))))⟩ := by
    rw [normalizeSector, hsi]
  rw [hnt, filterSectors]
  simp only [hsi, Option.getD_some]
  congr 1
  rw [List.filter_eq_self]
  intro r2 hr2
  obtain ⟨r, hr, rfl⟩ := List.mem_map.mp hr2
  have hcell : getCell (r.set si (Cell.str (Cell.fillSector (getCell r si)))) si
      = Cell.str (Cell.fillSector (getCell r si)) := by
    rw [getCell, List.getElem?_set_self (by rw [hw r hr]; exact hlen)]
    rfl
  rw [hcell]
  have hmemcol : Cell.str (Cell.fillSector (getCell r si)) ∈
      col ⟨t.cols, t.rows.map (fun r => r.set si (Cell.str (Cell.fillSector (getCell r si))))⟩ "Sector" := by
    rw [col]
    simp only [hsi]
    rw [← hcell]
    exact List.mem_map_of_mem _ hr2
  have hmem : Cell.fillSector (getCell r si) ∈
      all_sectors ⟨t.cols, t.rows.map (fun r => r.set si (Cell.str (Cell.fillSector (getCell r si))))⟩ := by
    rw [all_sectors]
    rw [mem_sortBy, mem_uniq]
    have := List.mem_map_of_mem asStr hmemcol
    simpa [asStr] using this
  simp [hmem]

/-- Witness for C8: a concrete two-row table filtered by all of its
distinct sectors is returned unchanged. -/
theorem claim8_witness :
    filterSectors (normalizeSector ⟨["Sector"], [[Cell.str "Tech"], [Cell.str "Health"]]⟩)
        (all_sectors (normalizeSector ⟨["Sector"], [[Cell.str "Tech"], [Cell.str "Health"]]⟩))
      = normalizeSector ⟨["Sector"], [[Cell.str "Tech"], [Cell.str "Health"]]⟩ :=
  claim8_filter_identity _ (by decide) (by decide)

theorem insertBy_pair_sorted {x : String × ℚ} : ∀ {l : List (String × ℚ)},
    l.Pairwise (fun p q => p.2 < q.2 ∨ (p.2 = q.2 ∧ q.1 < p.1)) →
    (∀ y ∈ l, y.1 < x.1) →
    (insertBy (fun p q : String × ℚ => decide (p.2 < q.2)) x l).Pairwise
      (fun p q => p.2 < q.2 ∨ (p.2 = q.2 ∧ q.1 < p.1)) := by
  intro l
  induction l with
  | nil => intro _ _; simp [insertBy]
  | cons h t ih =>
    intro hp hlab
    rw [List.pairwise_cons] at hp
    by_cases hlt : h.2 < x.2
    · have he : insertBy (fun p q : String × ℚ => decide (p.2 < q.2)) x (h :: t)
          = h :: insertBy (fun p q : String × ℚ => decide (p.2 < q.2)) x t := by
        simp [insertBy, hlt]
      rw [he, List.pairwise_cons]
      refine ⟨?_, ih hp.2 (fun y hy => hlab y (List.mem_cons_of_mem _ hy))⟩
      intro y hy
      rcases mem_insertBy.mp hy with rfl | hy2
      · exact Or.inl hlt
      · exact hp.1 y hy2
    · have he : insertBy (fun p q : String × ℚ => decide (p.2 < q.2)) x (h :: t)
          = x :: h :: t := by
        simp [insertBy, hlt]
      rw [he, List.pairwise_cons]
      constructor
      · intro y hy
        rcases List.mem_cons.mp hy with rfl | hy2
        · rcases lt_or_eq_of_le (le_of_not_lt hlt) with h1 | h1
          · exact Or.inl h1
          · exact Or.inr ⟨h1, hlab _ (List.mem_cons_self _ _)⟩
        · rcases hp.1 y hy2 with h5 | h5
          · exact Or.inl (lt_of_le_of_lt (le_of_not_lt hlt) h5)
          · rcases lt_or_eq_of_le (le_of_not_lt hlt) with h6 | h6
            · exact Or.inl (h6.trans_eq h5.1)
            · exact Or.inr ⟨h6.trans h5.1, hlab y (List.mem_cons_of_mem _ hy2)⟩
      · exact List.pairwise_cons.mpr hp

theorem sortBy_pair_sorted : ∀ {l : List (String × ℚ)},
    l.Pairwise (fun p q => q.1 < p.1) →
    (sortBy (fun p q : String × ℚ => decide (p.2 < q.2)) l).Pairwise
      (fun p q => p.2 < q.2 ∨ (p.2 = q.2 ∧ q.1 < p.1)) := by
  intro l
  induction l with
  | nil => intro _; simp [sortBy]
  | cons a t ih =>
    intro hp
    rw [List.pairwise_cons] at hp
    exact insertBy_pair_sorted (ih hp.2) (fun y hy => hp.1 y (mem_sortBy.mp hy))

/-- Counterexample to C5: the claim's own scenario.  `groupby('Sector')`
enumerates groups in ascending alphabetical order (Health before Tech)
and the descending sort is stable, so the tied groups come out
[Health, Tech] — not [Tech, Health] as the first-seen tie-break
predicts. -/
theorem claim5_counterexample :
    sector_mean ⟨["Sector", "Controversy Score"],
        [[Cell.str "Tech", Cell.num 1], [Cell.str "Tech", Cell.num 3],
         [Cell.str "Health", Cell.num 2]]⟩ "Controversy Score"
      = [("Health", 2), ("Tech", 2)] ∧
    sector_mean ⟨["Sector", "Controversy Score"],
        [[Cell.str "Tech", Cell.num 1], [Cell.str "Tech", Cell.num 3],
         [Cell.str "Health", Cell.num 2]]⟩ "Controversy Score"
      ≠ [("Tech", (2 : ℚ)), ("Health", 2)] := by
  constructor
  · rw [sector_mean]
    simp [idxOf?, groupMeansAt, uniq, sortBy, insertBy, strLt, strLtL, mean, asStr, getCell,
      Cell.num?]
    norm_num [sortBy, insertBy]
  · rw [sector_mean]
    simp [idxOf?, groupMeansAt, uniq, sortBy, insertBy, strLt, strLtL, mean, asStr, getCell,
      Cell.num?]
    norm_num [sortBy, insertBy]
    decide

/-- C5 amended: sector aggregation groups rows by sector, takes each
group's arithmetic mean, and orders groups descending by that mean;
ties are broken by the alphabetical order of the sector labels (the
order in which `groupby` enumerates groups), not by first appearance in
the table.  In the scenario the means are Tech = 2.0 and Health = 2.0
and the output order is Health before Tech. -/
theorem claim5_sector_order_amended :
    (∀ (t : Table) (m : String),
      (sector_mean t m).Pairwise
        (fun p q => q.2 ≤ p.2 ∧ (q.2 = p.2 → p.1 < q.1))) ∧
    sector_mean ⟨["Sector", "Controversy Score"],
        [[Cell.str "Tech", Cell.num 1], [Cell.str "Tech", Cell.num 3],
         [Cell.str "Health", Cell.num 2]]⟩ "Controversy Score"
      = [("Health", 2), ("Tech", 2)] := by
  constructor
  · intro t m
    simp only [sector_mean, groupMeansAt]
    rw [List.pairwise_reverse]
    refine (sortBy_pair_sorted ?_).imp ?_
    · exact List.pairwise_reverse.mpr
        (List.pairwise_map.mpr
          ((sortBy_sorted_lt strLt_iff (nodup_uniq _)).imp (fun h => h)))
    · intro a b h
      rcases h with h | h
      · exact ⟨le_of_lt h, fun he => absurd h (by rw [he]; exact lt_irrefl _)⟩
      · exact ⟨le_of_eq h.1, fun _ => h.2⟩
  · rw [sector_mean]
    simp [idxOf?, groupMeansAt, uniq, sortBy, insertBy, strLt, strLtL, mean, asStr, getCell,
      Cell.num?]
    norm_num [sortBy, insertBy]

theorem Cell.eq_num_of_num? {c : Cell} {q : ℚ} (h : c.num? = some q) : c = Cell.num q := by
  cases c with
  | num a =>
    simp [Cell.num?] at h
    rw [h]
  | str s => simp [Cell.num?] at h
  | null => simp [Cell.num?] at h

theorem insertBy_row_sorted {i : Nat} {x : List Cell}
    (hx : ((getCell x i).num?).isSome) : ∀ {l : List (List Cell)},
    (∀ r ∈ l, ((getCell r i).num?).isSome) →
    l.Pairwise (rowLe i) →
    (insertBy (fun r1 r2 => cellLt (getCell r1 i) (getCell r2 i)) x l).Pairwise (rowLe i) := by
  obtain ⟨qx, hqx⟩ := Option.isSome_iff_exists.mp hx
  have hcx : getCell x i = Cell.num qx := Cell.eq_num_of_num? hqx
  intro l
  induction l with
  | nil => intro _ _; simp [insertBy]
  | cons h t ih =>
    intro hnum hp
    rw [List.pairwise_cons] at hp
    obtain ⟨qh, hqh⟩ := Option.isSome_iff_exists.mp (hnum h (by simp))
    have hch : getCell h i = Cell.num qh := Cell.eq_num_of_num? hqh
    have hnt : ∀ r ∈ t, ((getCell r i).num?).isSome := fun r hr => hnum r (by simp [hr])
    by_cases hlt : qh < qx
    · have hcond : cellLt (getCell h i) (getCell x i) = true := by
        rw [hch, hcx]
        simp [cellLt, hlt]
      have he : insertBy (fun r1 r2 => cellLt (getCell r1 i) (getCell r2 i)) x (h :: t)
          = h :: insertBy (fun r1 r2 => cellLt (getCell r1 i) (getCell r2 i)) x t := by
        rw [insertBy, hcond]
        simp
      rw [he, List.pairwise_cons]
      refine ⟨?_, ih hnt hp.2⟩
      intro y hy
      rcases mem_insertBy.mp hy with rfl | hy2
      · intro a b ha hb
        rw [hqh] at ha
        rw [hqx] at hb
        have ha2 : a = qh := (Option.some.inj ha).symm
        have hb2 : b = qx := (Option.some.inj hb).symm
        subst ha2
        subst hb2
        exact le_of_lt hlt
      · exact hp.1 y hy2
    · have hcond : cellLt (getCell h i) (getCell x i) = false := by
        rw [hch, hcx]
        simp [cellLt, hlt]
      have he : insertBy (fun r1 r2 => cellLt (getCell r1 i) (getCell r2 i)) x (h :: t)
          = x :: h :: t := by
        rw [insertBy, hcond]
        simp
      have hxh : qx ≤ qh := le_of_not_lt hlt
      rw [he, List.pairwise_cons]
      refine ⟨?_, List.pairwise_cons.mpr hp⟩
      intro y hy
      rcases List.mem_cons.mp hy with rfl | hy2
      · intro a b ha hb
        rw [hqx] at ha
        rw [hqh] at hb
        have ha2 : a = qx := (Option.some.inj ha).symm
        have hb2 : b = qh := (Option.some.inj hb).symm
        subst ha2
        subst hb2
        exact hxh
      · intro a b ha hb
        obtain ⟨qy, hqy⟩ := Option.isSome_iff_exists.mp (hnt y hy2)
        have h1 : qh ≤ qy := hp.1 y hy2 qh qy hqh hqy
        rw [hqx] at ha
        rw [hqy] at hb
        have ha2 : a = qx := (Option.some.inj ha).symm
        have hb2 : b = qy := (Option.some.inj hb).symm
        subst ha2
        subst hb2
        exact hxh.trans h1

theorem sortBy_row_sorted {i : Nat} : ∀ {l : List (List Cell)},
    (∀ r ∈ l, ((getCell r i).num?).isSome) →
    (sortBy (fun r1 r2 => cellLt (getCell r1 i) (getCell r2 i)) l).Pairwise (rowLe i) := by
  intro l
  induction l with
  | nil => intro _; simp [sortBy]
  | cons a t ih =>
    intro hnum
    exact insertBy_row_sorted (hnum a (by simp))
      (fun r hr => hnum r (by simp [mem_sortBy.mp hr]))
      (ih (fun r hr => hnum r (by simp [hr])))

/-- C7: with N = 15, descending, sorted by "Total ESG Risk score" (all
of whose cells are numeric), the Top-N explorer's first returned row
attains the column's maximum over the whole table, and the number of
returned rows is min 15 (row count). -/
theorem claim7_topn (t : Table) (i : Nat)
    (hi : idxOf? "Total ESG Risk score" t.cols = some i)
    (hnum : ∀ r ∈ t.rows, ((getCell r i).num?).isSome)
    (hne : t.rows ≠ []) :
    (sorted_df t "Total ESG Risk score" 15 false).rows.length = min 15 t.rows.length ∧
    ∃ r0, (sorted_df t "Total ESG Risk score" 15 false).rows.head? = some r0 ∧
      ∃ q : ℚ, (getCell r0 i).num? = some q ∧
        ∀ r ∈ t.rows, ∀ v : ℚ, (getCell r i).num? = some v → v ≤ q := by
  have hrows : (sorted_df t "Total ESG Risk score" 15 false).rows
      = ((sortBy (fun r1 r2 => cellLt (getCell r1 i) (getCell r2 i)) t.rows.reverse).reverse).take 15 := by
    simp only [sorted_df, hi, Option.getD_some]
    rfl
  set s := sortBy (fun r1 r2 => cellLt (getCell r1 i) (getCell r2 i)) t.rows.reverse with hs
  have hperm : s.Perm t.rows.reverse := sortBy_perm _ _
  have hlen : s.length = t.rows.length := by
    rw [hperm.length_eq, List.length_reverse]
  constructor
  · rw [hrows, List.length_take, List.length_reverse, hlen]
  · have hsne : s ≠ [] := by
      intro h0
      apply hne
      rw [h0] at hlen
      exact List.eq_nil_of_length_eq_zero hlen.symm
    cases hsr : s.reverse with
    | nil => exact absurd (List.reverse_eq_nil_iff.mp hsr) hsne
    | cons r0 rest =>
      have hhead : ((s.reverse).take 15).head? = some r0 := by
        rw [hsr]
        rfl
      have hnumrev : ∀ r ∈ t.rows.reverse, ((getCell r i).num?).isSome :=
        fun r hr => hnum r (List.mem_reverse.mp hr)
      have hsorted : s.Pairwise (rowLe i) := sortBy_row_sorted hnumrev
      have hrevsorted : (s.reverse).Pairwise (fun a b => rowLe i b a) :=
        List.pairwise_reverse.mpr hsorted
      rw [hsr, List.pairwise_cons] at hrevsorted
      have hr0mem : r0 ∈ t.rows := by
        have h1 : r0 ∈ s.reverse := by rw [hsr]; simp
        rw [List.mem_reverse] at h1
        have h2 := hperm.mem_iff.mp h1
        rwa [List.mem_reverse] at h2
      obtain ⟨q, hq⟩ := Option.isSome_iff_exists.mp (hnum r0 hr0mem)
      refine ⟨r0, by rw [hrows]; exact hhead, q, hq, ?_⟩
      intro r hr v hv
      have hrrev : r ∈ s.reverse := by
        rw [List.mem_reverse]
        exact hperm.mem_iff.mpr (List.mem_reverse.mpr hr)
      rw [hsr, List.mem_cons] at hrrev
      rcases hrrev with rfl | hrrest
      · rw [hv] at hq
        exact le_of_eq (Option.some.inj hq)
      · exact hrevsorted.1 r hrrest v q hv hq

/-- Witness for C7: a concrete three-row table whose first Top-N row
carries the maximum score. -/
theorem claim7_witness :
    (sorted_df ⟨["Total ESG Risk score"], [[Cell.num 3], [Cell.num 1], [Cell.num 2]]⟩
        "Total ESG Risk score" 15 false).rows.length
      = min 15 (⟨["Total ESG Risk score"], [[Cell.num 3], [Cell.num 1], [Cell.num 2]]⟩ : Table).rows.length ∧
    ∃ r0, (sorted_df ⟨["Total ESG Risk score"], [[Cell.num 3], [Cell.num 1], [Cell.num 2]]⟩
        "Total ESG Risk score" 15 false).rows.head? = some r0 ∧
      ∃ q : ℚ, (getCell r0 0).num? = some q ∧
        ∀ r ∈ (⟨["Total ESG Risk score"], [[Cell.num 3], [Cell.num 1], [Cell.num 2]]⟩ : Table).rows,
          ∀ v : ℚ, (getCell r 0).num? = some v → v ≤ q :=
  claim7_topn _ 0 (by decide) (by decide) (by decide)

/-- C9: the correlation view is computed over exactly the whitelisted
columns present in the table, in whitelist order, and is skipped (the
warning branch) precisely when fewer than two of them are present. -/
theorem claim9_corr_columns :
    (∀ cols : List String, (valid_columns cols).Sublist columns_to_compare) ∧
    (∀ (cols : List String) (c : String),
      c ∈ valid_columns cols ↔ c ∈ columns_to_compare ∧ c ∈ cols) ∧
    (∀ t : Table, corrView t = none ↔ (valid_columns t.cols).length ≤ 1) := by
  refine ⟨fun cols => List.filter_sublist _, ?_, ?_⟩
  · intro cols c
    simp [valid_columns, List.mem_filter]
  · intro t
    by_cases h : 1 < (valid_columns t.cols).length
    · rw [corrView, if_pos h]
      constructor
      · intro h2
        exact absurd h2 (by simp)
      · intro h2
        omega
    · rw [corrView, if_neg h]
      constructor
      · intro _
        omega
      · intro _
        rfl

/-- Witness for C9 (instance of the skip condition at a concrete
table with a single whitelisted column). -/
theorem claim9_witness :
    corrView ⟨["Symbol", "Controversy Score"], []⟩ = none ↔
      (valid_columns (⟨["Symbol", "Controversy Score"], []⟩ : Table).cols).length ≤ 1 :=
  claim9_corr_columns.2.2 _

theorem pairsAt_swap (i1 i2 : Nat) (rows : List (List Cell)) :
    pairsAt i2 i1 rows = (pairsAt i1 i2 rows).map (fun p => (p.2, p.1)) := by
  rw [pairsAt, pairsAt, List.map_filterMap]
  refine List.filterMap_congr (fun r _ => ?_)
  cases (getCell r i1).num? <;> cases (getCell r i2).num? <;> rfl

theorem pairsAt_self (i : Nat) (rows : List (List Cell)) :
    pairsAt i i rows = (numsAt i rows).map (fun a => (a, a)) := by
  rw [pairsAt, numsAt, List.map_filterMap]
  refine List.filterMap_congr (fun r _ => ?_)
  cases (getCell r i).num? <;> rfl

theorem sxy_swap (l : List (ℚ × ℚ)) :
    sxy (l.map (fun p => (p.2, p.1))) = sxy l := by
  simp only [sxy, List.map_map]
  have hfst : (Prod.fst ∘ fun p : ℚ × ℚ => (p.2, p.1)) = Prod.snd := rfl
  have hsnd : (Prod.snd ∘ fun p : ℚ × ℚ => (p.2, p.1)) = Prod.fst := rfl
  rw [hfst, hsnd]
  congr 1
  refine List.map_congr_left (fun p _ => ?_)
  dsimp
  ring

theorem sxy_self (l : List ℚ) : sxy (l.map (fun a => (a, a))) = svar l := by
  simp only [sxy, svar, List.map_map]
  have h1 : (Prod.fst ∘ fun a : ℚ => (a, a)) = id := rfl
  have h2 : (Prod.snd ∘ fun a : ℚ => (a, a)) = id := rfl
  rw [h1, h2, List.map_id]
  congr 1
  refine List.map_congr_left (fun a _ => ?_)
  dsimp
  ring

theorem svar_nonneg (l : List ℚ) : 0 ≤ svar l := by
  simp only [svar]
  refine List.sum_nonneg (fun x hx => ?_)
  obtain ⟨a, _, rfl⟩ := List.mem_map.mp hx
  exact sq_nonneg _

theorem corrEntry_symm (t : Table) (c1 c2 : String) :
    corrEntry t c1 c2 = corrEntry t c2 c1 := by
  simp only [corrEntry, pairCol]
  rw [pairsAt_swap ((idxOf? c1 t.cols).getD 0) ((idxOf? c2 t.cols).getD 0) t.rows]
  simp only [List.map_map]
  have hfst : (Prod.fst ∘ fun p : ℚ × ℚ => (p.2, p.1)) = Prod.snd := rfl
  have hsnd : (Prod.snd ∘ fun p : ℚ × ℚ => (p.2, p.1)) = Prod.fst := rfl
  rw [hfst, hsnd, sxy_swap]
  by_cases h : svar ((pairsAt ((idxOf? c1 t.cols).getD 0) ((idxOf? c2 t.cols).getD 0) t.rows).map Prod.fst) = 0 ∨
      svar ((pairsAt ((idxOf? c1 t.cols).getD 0) ((idxOf? c2 t.cols).getD 0) t.rows).map Prod.snd) = 0
  · rw [if_pos h, if_pos (Or.symm h)]
  · rw [if_neg h, if_neg (fun h2 => h (Or.symm h2))]
    rw [mul_comm]

theorem matEntry_corr (t : Table) (i j : Nat) :
    matEntry (corr_matrix t) i j
      = ((valid_columns t.cols)[i]?).bind (fun c1 =>
          ((valid_columns t.cols)[j]?).map (fun c2 => corrEntry t c1 c2)) := by
  rw [matEntry, corr_matrix, List.getElem?_map]
  cases (valid_columns t.cols)[i]? with
  | none => rfl
  | some c1 => simp [List.getElem?_map]

/-- Counterexample to C10: a table whose first whitelisted column is
constant.  The correlation view is computed (two whitelisted columns
present), but pandas `corr` puts NaN — not 1.0 — on that diagonal
entry, because the divisor `sqrt(sumxx * sumyy)` is zero. -/
theorem claim10_counterexample :
    1 < (valid_columns (⟨["Environment Risk Score", "Social Risk Score"],
        [[Cell.num 1, Cell.num 1], [Cell.num 1, Cell.num 2]]⟩ : Table).cols).length ∧
    matEntry (corr_matrix ⟨["Environment Risk Score", "Social Risk Score"],
        [[Cell.num 1, Cell.num 1], [Cell.num 1, Cell.num 2]]⟩) 0 0 ≠ some (some (1 : ℝ)) := by
  constructor
  · decide
  · rw [matEntry_corr]
    rw [show (valid_columns (⟨["Environment Risk Score", "Social Risk Score"],
        [[Cell.num 1, Cell.num 1], [Cell.num 1, Cell.num 2]]⟩ : Table).cols)[0]?
        = some "Environment Risk Score" from by decide]
    have hzero : svar ((pairCol ⟨["Environment Risk Score", "Social Risk Score"],
        [[Cell.num 1, Cell.num 1], [Cell.num 1, Cell.num 2]]⟩
        "Environment Risk Score" "Environment Risk Score").map Prod.fst) = 0 := by
      rw [pairCol]
      simp [idxOf?]
      simp [pairsAt, getCell, Cell.num?]
      norm_num [svar, mean]
    have hnone : corrEntry ⟨["Environment Risk Score", "Social Risk Score"],
        [[Cell.num 1, Cell.num 1], [Cell.num 1, Cell.num 2]]⟩
        "Environment Risk Score" "Environment Risk Score" = none := by
      simp only [corrEntry]
      rw [if_pos (Or.inl hzero)]
    show some (corrEntry ⟨["Environment Risk Score", "Social Risk Score"],
        [[Cell.num 1, Cell.num 1], [Cell.num 1, Cell.num 2]]⟩
        "Environment Risk Score" "Environment Risk Score") ≠ some (some (1 : ℝ))
    rw [hnone]
    simp

/-- C10 amended: the correlation matrix is always symmetric, and the
diagonal entry of a whitelisted column present in the table equals 1.0
provided that column's values are not constant on the pairwise-complete
rows (nonzero sum of squared deviations); for a constant column the
diagonal entry is NaN. -/
theorem claim10_corr_symm_diag_amended :
    (∀ (t : Table) (i j : Nat),
      matEntry (corr_matrix t) i j = matEntry (corr_matrix t) j i) ∧
    (∀ (t : Table) (i : Nat) (c : String),
      (valid_columns t.cols)[i]? = some c →
      svar (numsOf t c) ≠ 0 →
      matEntry (corr_matrix t) i i = some (some 1)) := by
  constructor
  · intro t i j
    rw [matEntry_corr, matEntry_corr]
    cases (valid_columns t.cols)[i]? with
    | none =>
      cases (valid_columns t.cols)[j]? with
      | none => rfl
      | some c2 => rfl
    | some c1 =>
      cases (valid_columns t.cols)[j]? with
      | none => rfl
      | some c2 => simp [corrEntry_symm t c1 c2]
  · intro t i c hc hvar
    rw [matEntry_corr, hc]
    have hpair : pairCol t c c
        = (numsAt ((idxOf? c t.cols).getD 0) t.rows).map (fun a => (a, a)) := by
      rw [pairCol, pairsAt_self]
    have hr : corrEntry t c c = some 1 := by
      simp only [corrEntry]
      rw [hpair]
      simp only [List.map_map]
      have h1 : (Prod.fst ∘ fun a : ℚ => (a, a)) = id := rfl
      have h2 : (Prod.snd ∘ fun a : ℚ => (a, a)) = id := rfl
      rw [h1, h2, List.map_id, sxy_self]
      have hvar2 : svar (numsAt ((idxOf? c t.cols).getD 0) t.rows) ≠ 0 := by
        rw [numsOf] at hvar
        exact hvar
      rw [if_neg (by simpa using hvar2)]
      have hnn : (0 : ℝ) ≤ (svar (numsAt ((idxOf? c t.cols).getD 0) t.rows) : ℝ) := by
        exact_mod_cast svar_nonneg _
      rw [Real.mul_self_sqrt hnn]
      rw [div_self (by exact_mod_cast hvar2)]
    show some (corrEntry t c c) = some (some 1)
    rw [hr]

/-- Witness for C10 amended: on a concrete table with two whitelisted,
non-constant columns, the (0,0) diagonal entry is exactly 1. -/
theorem claim10_witness :
    matEntry (corr_matrix ⟨["Environment Risk Score", "Social Risk Score"],
        [[Cell.num 1, Cell.num 1], [Cell.num 2, Cell.num 3]]⟩) 0 0 = some (some 1) :=
  claim10_corr_symm_diag_amended.2 _ 0 "Environment Risk Score" (by decide)
    (by
      rw [numsOf]
      simp [idxOf?]
      simp [numsAt, getCell, Cell.num?]
      norm_num [svar, mean])

theorem cols_filterSectors (t : Table) (sel : List String) :
    (filterSectors t sel).cols = t.cols := rfl

theorem cols_pipelineDf (t0 : Table) (sel : List String) :
    (pipelineDf t0 sel).cols = t0.cols := by
  simp only [pipelineDf]
  split
  · split
    · exact cols_normalizeSector t0
    · rw [cols_filterSectors, cols_normalizeSector]
  · rfl

theorem col_filterSectors (t : Table) (sel : List String) (c : String) :
    ∀ x ∈ col (filterSectors t sel) c, x ∈ col t c := by
  intro x
  simp only [col, cols_filterSectors]
  cases hidx : idxOf? c t.cols with
  | none => exact fun hx => hx
  | some i =>
    intro hx
    obtain ⟨r, hr, rfl⟩ := List.mem_map.mp hx
    exact List.mem_map_of_mem _ (List.mem_of_mem_filter hr)

theorem hasStrCell_filterSectors (t : Table) (sel : List String) (c : String)
    (h : hasStrCell t c = false) : hasStrCell (filterSectors t sel) c = false := by
  rw [hasStrCell, List.any_eq_false]
  rw [hasStrCell, List.any_eq_false] at h
  intro x hx
  exact h x (col_filterSectors t sel c x hx)

theorem hasStrCell_normalizeSector (t : Table) (c : String) (hc : c ≠ "Sector")
    (h : hasStrCell t c = false) : hasStrCell (normalizeSector t) c = false := by
  rw [hasStrCell, col_normalizeSector_ne t c hc]
  rw [hasStrCell] at h
  exact h

theorem hasStrCell_pipelineDf (t0 : Table) (sel : List String) (c : String) (hc : c ≠ "Sector")
    (h : hasStrCell t0 c = false) : hasStrCell (pipelineDf t0 sel) c = false := by
  simp only [pipelineDf]
  split
  · split
    · exact hasStrCell_normalizeSector t0 c hc h
    · exact hasStrCell_filterSectors _ sel c (hasStrCell_normalizeSector t0 c hc h)
  · exact h

theorem pick_mem {l : List String} {i : Nat} {x : String} (h : pick l i = some x) : x ∈ l := by
  rw [pick] at h
  cases hg : l[i]? with
  | some y =>
    rw [hg] at h
    simp only [Option.orElse] at h
    obtain ⟨hlt, heq⟩ := List.getElem?_eq_some.mp hg
    have hxy : x = y := (Option.some.inj h).symm
    subst hxy
    rw [← heq]
    exact List.getElem_mem hlt
  | none =>
    rw [hg] at h
    simp only [Option.orElse] at h
    cases l with
    | nil => simp at h
    | cons a t =>
      simp at h
      rw [← h]
      simp

theorem pick_isSome {l : List String} (h : l ≠ []) (i : Nat) : ∃ x, pick l i = some x := by
  rw [pick]
  cases hg : l[i]? with
  | some y => exact ⟨y, by simp [Option.orElse]⟩
  | none =>
    cases l with
    | nil => exact absurd rfl h
    | cons a t => exact ⟨a, by simp [Option.orElse]⟩

theorem whitelist_score : ∀ c ∈ columns_to_compare, scoreSub c = true := by decide

theorem scoreSub_ne_sector {c : String} (h : scoreSub c = true) : c ≠ "Sector" := by
  intro he
  subst he
  exact absurd h (by decide)

/-- Counterexample to C2: a table without a `Symbol` column (but with a
score column) crashes the script — `px.bar(sorted_df, y='Symbol', ...)`
on line 137 is not guarded by any column-presence check and raises. -/
theorem claim2_counterexample :
    renderAll ⟨["Total ESG Risk score"], [[Cell.num 1]]⟩ [] 0 0 0
      = Except.error "bar chart raises: Symbol column missing" := rfl

/-- C2 amended: the Sector-dependent views and the correlation view do
check column presence and degrade, but the Top-N bar chart and the
scatter plot use `Symbol` (and the scatter's default colour `Sector`)
unconditionally, the sort/metric selectors assume a numeric score
column exists, and the scatter's Y-axis selectbox assumes either a
`Controversy Score` metric or at least two metric columns (its default
`index=1` is otherwise out of range).  Under those hypotheses —
`Symbol` and `Sector` present, at least one score column, no string
values in score columns, and `Controversy Score` a metric or two or
more metric columns — no operation raises, for every sector selection
and widget choice. -/
theorem claim2_pipeline_safe_amended (t0 : Table) (sel : List String) (mIdx sIdx cIdx : Nat)
    (hSym : "Symbol" ∈ t0.cols) (hSec : "Sector" ∈ t0.cols)
    (hrm : risk_metrics t0.cols ≠ [])
    (hnum : ∀ c ∈ risk_metrics t0.cols, hasStrCell t0 c = false)
    (hy : "Controversy Score" ∈ risk_metrics t0.cols ∨ 2 ≤ (risk_metrics t0.cols).length) :
    renderAll t0 sel mIdx sIdx cIdx = .ok () := by
  have hcols : (pipelineDf t0 sel).cols = t0.cols := cols_pipelineDf t0 sel
  have hstr : ∀ c ∈ risk_metrics t0.cols, hasStrCell (pipelineDf t0 sel) c = false := by
    intro c hc
    have hsub : scoreSub c = true := (List.mem_filter.mp hc).2
    exact hasStrCell_pipelineDf t0 sel c (scoreSub_ne_sector hsub) (hnum c hc)
  have h1 : (pipelineDf t0 sel).cols.isEmpty = false := by
    rw [hcols]
    cases hq : t0.cols with
    | nil => rw [hq] at hSym; simp at hSym
    | cons a t => rfl
  have h2 : corrRaises (pipelineDf t0 sel) = false := by
    rw [corrRaises]
    have hany : (valid_columns (pipelineDf t0 sel).cols).any
        (hasStrCell (pipelineDf t0 sel)) = false := by
      rw [List.any_eq_false]
      intro c hcv
      have hmem := List.mem_filter.mp hcv
      have hc2 : c ∈ (pipelineDf t0 sel).cols := by simpa using hmem.2
      have hss : scoreSub c = true := whitelist_score c hmem.1
      have hcrm : c ∈ risk_metrics t0.cols :=
        List.mem_filter.mpr ⟨by rwa [hcols] at hc2, hss⟩
      simp [hstr c hcrm]
    rw [hany]
    simp
  have h3 : meanRaises (pipelineDf t0 sel) mIdx = false := by
    rw [meanRaises]
    cases hp : pick (risk_metrics (pipelineDf t0 sel).cols) mIdx with
    | none => rfl
    | some m =>
      have hm : m ∈ risk_metrics t0.cols := by
        have := pick_mem hp
        rwa [hcols] at this
      simp [hstr m hm]
  have h4 : sortRaises (pipelineDf t0 sel) sIdx = false := by
    rw [sortRaises]
    have hne2 : risk_metrics (pipelineDf t0 sel).cols ≠ [] := by
      rw [hcols]
      exact hrm
    obtain ⟨s, hs⟩ := pick_isSome hne2 sIdx
    rw [hs]
    have hsmem : s ∈ risk_metrics t0.cols := by
      have := pick_mem hs
      rwa [hcols] at this
    simp [hstr s hsmem]
  have h5 : "Symbol" ∈ (pipelineDf t0 sel).cols := by
    rw [hcols]
    exact hSym
  have h7 : scatterYRaises (pipelineDf t0 sel) = false := by
    rw [scatterYRaises, hcols]
    rcases hy with hy | hy
    · simp [hy]
    · simp [Nat.not_lt.mpr hy]
  have h6 : scatterRaises (pipelineDf t0 sel) cIdx = false := by
    rw [scatterRaises]
    have hmatch : (match pick ("Sector" :: risk_metrics (pipelineDf t0 sel).cols) cIdx with
        | none => false
        | some c => decide (c ∉ (pipelineDf t0 sel).cols)) = false := by
      cases hp : pick ("Sector" :: risk_metrics (pipelineDf t0 sel).cols) cIdx with
      | none => rfl
      | some c =>
        rcases List.mem_cons.mp (pick_mem hp) with rfl | hrm2
        · have : "Sector" ∈ (pipelineDf t0 sel).cols := by
            rw [hcols]
            exact hSec
          simp [this]
        · have : c ∈ (pipelineDf t0 sel).cols := List.mem_of_mem_filter hrm2
          simp [this]
    rw [hmatch]
    simp [h5]
  simp [renderAll, h1, h2, h3, h4, h5, h6, h7]

/-- Witness for C2 amended: a concrete well-formed table (with a
`Controversy Score` metric for the scatter default) renders without any
exception. -/
theorem claim2_witness :
    renderAll ⟨["Symbol", "Sector", "Total ESG Risk score", "Controversy Score"],
        [[Cell.str "AAPL", Cell.str "Tech", Cell.num 10, Cell.num 2]]⟩ [] 0 0 0
      = Except.ok () :=
  claim2_pipeline_safe_amended _ [] 0 0 0 (by decide) (by decide) (by decide) (by decide)
    (by decide)

end ESG
